import Mathlib

/-!
# Verification of the rqLui streaming import/export pipeline

Shallow embedding of the core of the `Suleman-Elahi/rqLui` repository:
the import worker (`src/workers/import-worker.ts`), the import dispatch
(`src/services/import-service.ts`), the export pipeline
(`src/services/export-service.ts`), the remote-store wrapper
(`src/services/rqlite-service.ts`) and the cell-edit statement builder
(`src/components/QueryTab.vue`).

Text is modelled as `List Nat` of Unicode code points; byte streams as
`List Nat` of byte values.  JavaScript string primitives used by the
source (`trim`, `split`, `toUpperCase`, `startsWith`) are embedded below,
and the platform `TextDecoder` (UTF-8, non-fatal, streaming) is embedded
as the WHATWG `utf-8 decode` byte state machine.
-/

/-- Code points that JavaScript `String.prototype.trim` removes
(ECMAScript WhiteSpace and LineTerminator). -/
def isJsWhitespace (c : Nat) : Bool :=
  c = 9 ∨ c = 10 ∨ c = 11 ∨ c = 12 ∨ c = 13 ∨ c = 32 ∨ c = 160 ∨
  c = 5760 ∨ (8192 ≤ c ∧ c ≤ 8202) ∨ c = 8232 ∨ c = 8233 ∨ c = 8239 ∨
  c = 8287 ∨ c = 12288 ∨ c = 65279

/-- JavaScript `s.trim()`: strip leading and trailing whitespace. -/
def jsTrim (s : List Nat) : List Nat :=
  ((s.dropWhile isJsWhitespace).reverse.dropWhile isJsWhitespace).reverse

/-- JavaScript `s.split(sep)` for a one-character separator: the list of
(possibly empty) segments between occurrences of `sep`.  Never empty;
`split` of the empty string is `[[]]`. -/
def splitOnChar (sep : Nat) : List Nat → List (List Nat)
  | [] => [[]]
  | c :: cs =>
    if c = sep then [] :: splitOnChar sep cs
    else
      match splitOnChar sep cs with
      | [] => [[c]]
      | p :: ps => (c :: p) :: ps

/-- JavaScript `s.toUpperCase()` restricted to ASCII (the full Unicode
mapping agrees with this on the ASCII statements the splitter compares). -/
def cpToUpper (c : Nat) : Nat :=
  if 97 ≤ c ∧ c ≤ 122 then c - 32 else c

/-- JavaScript `s.toUpperCase()` on a whole string. -/
def jsToUpper (s : List Nat) : List Nat := s.map cpToUpper

/-- Code points of a Lean string literal (used to write concrete inputs). -/
def strCps (s : String) : List Nat := s.data.map Char.toNat

/-- Bytes of an ASCII string literal (for ASCII text, UTF-8 bytes coincide
with code points). -/
def asciiBytes (s : String) : List Nat := s.data.map Char.toNat

/-! ## The platform `TextDecoder` (WHATWG `utf-8 decode`, streaming)

`import-worker.ts` creates `new TextDecoder()` and calls
`decoder.decode(value, { stream: true })` on every chunk; the decoder
carries the bytes of an incomplete multi-byte sequence over to the next
chunk.  The WHATWG utf-8 decoder is a byte-at-a-time state machine; we
embed it verbatim (emitting `0xFFFD` for errors, as the non-fatal decoder
does). -/

structure Utf8DecState where
  codePoint : Nat
  bytesNeeded : Nat
  bytesSeen : Nat
  lowerBoundary : Nat
  upperBoundary : Nat
  deriving DecidableEq, Repr

def utf8Init : Utf8DecState :=
  { codePoint := 0, bytesNeeded := 0, bytesSeen := 0,
    lowerBoundary := 0x80, upperBoundary := 0xBF }

/-- WHATWG utf-8 decoder, handler for a byte in the initial state
(`bytes needed = 0`). -/
def utf8StartByte (b : Nat) : Utf8DecState × List Nat :=
  if b ≤ 0x7F then (utf8Init, [b])
  else if 0xC2 ≤ b ∧ b ≤ 0xDF then
    ({ utf8Init with bytesNeeded := 1, codePoint := b % 32 }, [])
  else if 0xE0 ≤ b ∧ b ≤ 0xEF then
    ({ utf8Init with
        bytesNeeded := 2
        codePoint := b % 16
        lowerBoundary := if b = 0xE0 then 0xA0 else 0x80
        upperBoundary := if b = 0xED then 0x9F else 0xBF }, [])
  else if 0xF0 ≤ b ∧ b ≤ 0xF4 then
    ({ utf8Init with
        bytesNeeded := 3
        codePoint := b % 8
        lowerBoundary := if b = 0xF0 then 0x90 else 0x80
        upperBoundary := if b = 0xF4 then 0x8F else 0xBF }, [])
  else (utf8Init, [0xFFFD])

/-- WHATWG utf-8 decoder, handler for one byte. -/
def utf8Step (st : Utf8DecState) (b : Nat) : Utf8DecState × List Nat :=
  if st.bytesNeeded = 0 then utf8StartByte b
  else if st.lowerBoundary ≤ b ∧ b ≤ st.upperBoundary then
    let cp := st.codePoint * 64 + b % 64
    let seen := st.bytesSeen + 1
    if seen = st.bytesNeeded then (utf8Init, [cp])
    else ({ st with
        codePoint := cp
        bytesSeen := seen
        lowerBoundary := 0x80
        upperBoundary := 0xBF }, [])
  else
    -- invalid continuation: emit U+FFFD, restore state, reprocess the byte
    let (st2, out) := utf8StartByte b
    (st2, 0xFFFD :: out)

/-- Streaming decode of a byte list from a decoder state, as performed by
`decoder.decode(value, { stream: true })`. -/
def utf8Decode (st : Utf8DecState) : List Nat → Utf8DecState × List Nat
  | [] => (st, [])
  | b :: bs =>
    ((utf8Decode (utf8Step st b).1 bs).1,
      (utf8Step st b).2 ++ (utf8Decode (utf8Step st b).1 bs).2)

example : (utf8Decode utf8Init (asciiBytes "ab")).2 = strCps "ab" := by decide

-- a two-byte character (U+00E9, bytes C3 A9) split across a boundary
example :
    (utf8Decode utf8Init [0xC3]).2 = [] ∧
    (utf8Decode (utf8Decode utf8Init [0xC3]).1 [0xA9]).2 = [0xE9] := by decide

/-! ## `parseCSVLine` (import-worker.ts, lines 142-173)

The two-state quote machine.  `34` is `"`, `44` is `,`.  The JS loop walks
the line with an index `i` and a one-character lookahead `nextChar`; the
recursion below consumes the same characters in the same order. -/

def parseCSVLineLoop : List Nat → Bool → List Nat → List (List Nat) → List (List Nat)
  | [], _, current, result => result ++ [jsTrim current]
  | 34 :: 34 :: rest, true, current, result =>
    -- char === '"' && nextChar === '"': emit a literal quote, skip both
    parseCSVLineLoop rest true (current ++ [34]) result
  | 34 :: rest, true, current, result => parseCSVLineLoop rest false current result
  | c :: rest, true, current, result => parseCSVLineLoop rest true (current ++ [c]) result
  | 34 :: rest, false, current, result => parseCSVLineLoop rest true current result
  | 44 :: rest, false, current, result =>
    parseCSVLineLoop rest false [] (result ++ [jsTrim current])
  | c :: rest, false, current, result => parseCSVLineLoop rest false (current ++ [c]) result

/-- `parseCSVLine` from import-worker.ts. -/
def parseCSVLine (line : List Nat) : List (List Nat) :=
  parseCSVLineLoop line false [] []

example : parseCSVLine (strCps "1,Alice") = [strCps "1", strCps "Alice"] := by decide

/-- Contrast definition following the spec's words for claim C9: the same
quote machine but with fields pushed untrimmed ("whitespace ... inside a
quoted region ... is preserved").  Used to state exactly what the real
`parseCSVLine` trims. -/
def parseCSVLineRawLoop : List Nat → Bool → List Nat → List (List Nat) → List (List Nat)
  | [], _, current, result => result ++ [current]
  | 34 :: 34 :: rest, true, current, result =>
    parseCSVLineRawLoop rest true (current ++ [34]) result
  | 34 :: rest, true, current, result => parseCSVLineRawLoop rest false current result
  | c :: rest, true, current, result => parseCSVLineRawLoop rest true (current ++ [c]) result
  | 34 :: rest, false, current, result => parseCSVLineRawLoop rest true current result
  | 44 :: rest, false, current, result =>
    parseCSVLineRawLoop rest false [] (result ++ [current])
  | c :: rest, false, current, result => parseCSVLineRawLoop rest false (current ++ [c]) result

def parseCSVLineRaw (line : List Nat) : List (List Nat) :=
  parseCSVLineRawLoop line false [] []

/-! ## The streaming read loops (import-worker.ts `parseCSV` / `parseSQL`)

Both read loops have the identical skeleton: read a chunk, decode it
incrementally, append the text to a pending buffer, split the buffer on a
separator (`\n` for CSV at line 78, `;` for SQL at line 195), process
every complete unit and retain the last segment as the new buffer.  The
skeleton is factored out as `streamChunk` over a payload state `σ`;
`parseCSV` and `parseSQL` instantiate `σ` with their respective batching
states.  Runs model a non-cancelled worker (`cancelled` stays false). -/

structure StreamState (σ : Type) where
  dec : Utf8DecState
  buffer : List Nat
  core : σ
  deriving DecidableEq, Repr

/-- `buffer.split(sep)` followed by `lines.pop()`, in one pass: the
complete segments and the retained last segment.  `splitParts sep s`
equals `splitOnChar sep s` with its last element split off
(theorem `splitOnChar_eq_splitParts` below). -/
def splitParts (sep : Nat) : List Nat → List (List Nat) × List Nat
  | [] => ([], [])
  | c :: cs =>
    let p := splitParts sep cs
    if c = sep then ([] :: p.1, p.2)
    else
      match p.1 with
      | [] => ([], c :: p.2)
      | l0 :: rest => ((c :: l0) :: rest, p.2)

/-- One iteration of the `while` read loop on one chunk of bytes:
decode, split off the complete units, process each with `proc`. -/
def streamChunk (sep : Nat) (proc : σ → List Nat → σ)
    (s : StreamState σ) (chunk : List Nat) : StreamState σ :=
  let (dec, cps) := utf8Decode s.dec chunk
  let parts := splitParts sep (s.buffer ++ cps)
  { dec := dec
    buffer := parts.2
    core := parts.1.foldl proc s.core }

/-- Payload state of `parseCSV` (import-worker.ts, lines 62-67), plus the
ghost field `linesSeen` recording the complete logical lines handed to
`parseCSVLine`, in order. -/
structure CSVCore where
  isFirstLine : Bool
  headers : List (List Nat)
  currentBatch : List (List (List Nat))
  batches : List (List (List (List Nat)))
  totalRows : Nat
  linesSeen : List (List Nat)
  deriving DecidableEq, Repr

def csvCoreInit : CSVCore :=
  { isFirstLine := true, headers := [], currentBatch := [], batches := [],
    totalRows := 0, linesSeen := [] }

/-- Body of `for (const line of lines)` in `parseCSV`
(import-worker.ts, lines 81-108): trim, drop empty lines, capture the
header row once, parse data rows and flush a batch when it reaches
`batchSize`. -/
def csvProcessLine (batchSize : Nat) (s : CSVCore) (line : List Nat) : CSVCore :=
  let trimmed := jsTrim line
  if trimmed = [] then s
  else if s.isFirstLine then
    { s with
        headers := parseCSVLine trimmed
        isFirstLine := false
        linesSeen := s.linesSeen ++ [trimmed] }
  else
    let values := parseCSVLine trimmed
    let cb := s.currentBatch ++ [values]
    if batchSize ≤ cb.length then
      { s with
          currentBatch := []
          batches := s.batches ++ [cb]
          totalRows := s.totalRows + 1
          linesSeen := s.linesSeen ++ [trimmed] }
    else
      { s with
          currentBatch := cb
          totalRows := s.totalRows + 1
          linesSeen := s.linesSeen ++ [trimmed] }

/-- First half of the end-of-stream handling of `parseCSV`
(import-worker.ts, lines 119-124): a non-whitespace remainder is parsed
and pushed as a data row unconditionally — there is no first-line check
here (an unterminated sole line becomes a row, never the header) and no
flush check. -/
def csvRemainder (buffer : List Nat) (c : CSVCore) : CSVCore :=
  if jsTrim buffer ≠ [] then
    { c with
        currentBatch := c.currentBatch ++ [parseCSVLine (jsTrim buffer)]
        totalRows := c.totalRows + 1
        linesSeen := c.linesSeen ++ [jsTrim buffer] }
  else c

/-- Second half of the end-of-stream handling of `parseCSV`
(import-worker.ts, lines 127-135): flush a non-empty current batch. -/
def csvFlush (c : CSVCore) : CSVCore :=
  if c.currentBatch ≠ [] then
    { c with batches := c.batches ++ [c.currentBatch], currentBatch := [] }
  else c

/-- End-of-stream handling of `parseCSV` (import-worker.ts, lines
119-135). -/
def csvFinalize (s : StreamState CSVCore) : CSVCore :=
  csvFlush (csvRemainder s.buffer s.core)

/-- `parseCSV` from import-worker.ts, run (without cancellation) on a file
delivered as the given list of byte chunks.  Returns the final worker
state; `batches` holds the emitted `batch` messages in order and
`totalRows` the count reported by the final `complete` message. -/
def parseCSV (batchSize : Nat) (chunks : List (List Nat)) : CSVCore :=
  csvFinalize (chunks.foldl (streamChunk 10 (csvProcessLine batchSize))
    { dec := utf8Init, buffer := [], core := csvCoreInit })

/-- Payload state of `parseSQL` (import-worker.ts, lines 179-183), plus
the ghost field `stmtsSeen` recording the accepted INSERT statements in
order. -/
structure SQLCore where
  currentBatch : List (List (List Nat))
  batches : List (List (List (List Nat)))
  totalRows : Nat
  stmtsSeen : List (List Nat)
  deriving DecidableEq, Repr

def sqlCoreInit : SQLCore :=
  { currentBatch := [], batches := [], totalRows := 0, stmtsSeen := [] }

/-- Acceptance test of the statement filter: `toUpperCase().startsWith('INSERT')`. -/
def isInsertStatement (stmt : List Nat) : Bool :=
  (strCps "INSERT").isPrefixOf (jsToUpper stmt)

/-- The statement splitter's effective acceptance condition on a trimmed
segment (theorem `parseSQL_yield` shows this characterizes the output). -/
def sqlKeeps (t : List Nat) : Bool :=
  !t.isEmpty && isInsertStatement t

/-- Body of the inner `while ((semicolonIndex = ...))` loop of `parseSQL`
(import-worker.ts, lines 195-219): trim the segment before the `;`, skip
empty segments and `--` comment lines, batch INSERT statements. -/
def sqlProcessStmt (batchSize : Nat) (s : SQLCore) (seg : List Nat) : SQLCore :=
  let statement := jsTrim seg
  if statement = [] ∨ (strCps "--").isPrefixOf statement then s
  else if isInsertStatement statement then
    let cb := s.currentBatch ++ [[statement]]
    if batchSize ≤ cb.length then
      { s with
          currentBatch := []
          batches := s.batches ++ [cb]
          totalRows := s.totalRows + 1
          stmtsSeen := s.stmtsSeen ++ [statement] }
    else
      { s with
          currentBatch := cb
          totalRows := s.totalRows + 1
          stmtsSeen := s.stmtsSeen ++ [statement] }
  else s

/-- First half of the end-of-stream handling of `parseSQL`
(import-worker.ts, lines 230-237): a non-whitespace remainder is
accepted if it is an INSERT statement (with no flush check). -/
def sqlRemainder (buffer : List Nat) (c : SQLCore) : SQLCore :=
  if jsTrim buffer ≠ [] then
    if isInsertStatement (jsTrim buffer) then
      { c with
          currentBatch := c.currentBatch ++ [[jsTrim buffer]]
          totalRows := c.totalRows + 1
          stmtsSeen := c.stmtsSeen ++ [jsTrim buffer] }
    else c
  else c

/-- Second half of the end-of-stream handling of `parseSQL`
(import-worker.ts, lines 240-248): flush a non-empty current batch. -/
def sqlFlush (c : SQLCore) : SQLCore :=
  if c.currentBatch ≠ [] then
    { c with batches := c.batches ++ [c.currentBatch], currentBatch := [] }
  else c

/-- End-of-stream handling of `parseSQL` (import-worker.ts, lines
230-248). -/
def sqlFinalize (s : StreamState SQLCore) : SQLCore :=
  sqlFlush (sqlRemainder s.buffer s.core)

/-- `parseSQL` from import-worker.ts, run (without cancellation) on a file
delivered as the given list of byte chunks. -/
def parseSQL (batchSize : Nat) (chunks : List (List Nat)) : SQLCore :=
  sqlFinalize (chunks.foldl (streamChunk 59 (sqlProcessStmt batchSize))
    { dec := utf8Init, buffer := [], core := sqlCoreInit })

example :
    (parseCSV 2 [asciiBytes "id,name\n1,Alice\n2,Bob"]).batches =
      [[[strCps "1", strCps "Alice"], [strCps "2", strCps "Bob"]]] := by decide

example :
    (parseSQL 500 [asciiBytes "CREATE TABLE t (a);\ninsert into t values (1);"]).stmtsSeen =
      [strCps "insert into t values (1)"] := by decide

/-! ## Parameterized statement construction

`import-service.ts` (`processBatchQueue`, CSV branch) builds one INSERT
per parsed row; `QueryTab.vue` (`handleCellEdit`) builds one UPDATE per
cell edit.  A `ParameterizedStatement` is `[sql, ...values]`: a template
string plus the ordered bound values.  SQL text is modelled as code
points; `.data`-free string pieces are written with `strCps`. -/

/-- JavaScript `Array.prototype.join(sep)`. -/
def jsJoin (sep : List Nat) : List (List Nat) → List Nat
  | [] => []
  | [x] => x
  | x :: y :: rest => x ++ sep ++ jsJoin sep (y :: rest)

/-- The SQL template of the per-row CSV INSERT
(import-service.ts, lines 273-275):
`INSERT INTO "${tableName}" (${headers.map(h => `"${h}"`).join(', ')})
VALUES (${placeholders})` where `placeholders` is one `?` per header. -/
def csvInsertSql (tableName : List Nat) (headers : List (List Nat)) : List Nat :=
  strCps "INSERT INTO \"" ++ tableName ++ strCps "\" (" ++
    jsJoin (strCps ", ") (headers.map (fun h => strCps "\"" ++ h ++ strCps "\"")) ++
    strCps ") VALUES (" ++
    jsJoin (strCps ", ") (headers.map (fun _ => strCps "?")) ++ strCps ")"

/-- The full parameterized statement `[sql, ...values]` built for one CSV
row (import-service.ts, lines 272-277): template plus the row's values. -/
def csvRowStatement (tableName : List Nat) (headers : List (List Nat))
    (values : List (List Nat)) : List Nat × List (List Nat) :=
  (csvInsertSql tableName headers, values)

/-- The parameterized UPDATE built by `handleCellEdit`
(QueryTab.vue, lines 237-241):
`UPDATE "${tableName}" SET "${column}" = ? WHERE "${primaryKey}" = ?`
with bound values `[newValue, primaryKeyValue]`. -/
def cellEditStatement (tableName column primaryKey : List Nat)
    (newValue primaryKeyValue : List Nat) : List Nat × List (List Nat) :=
  (strCps "UPDATE \"" ++ tableName ++ strCps "\" SET \"" ++ column ++
     strCps "\" = ? WHERE \"" ++ primaryKey ++ strCps "\" = ?",
   [newValue, primaryKeyValue])

/-- Number of `?` placeholders in a SQL template. -/
def countPlaceholders (sql : List Nat) : Nat := sql.count 63

/-! ## The remote-store wrapper (rqlite-service.ts)

Responses are modelled by their payload: a list of per-statement results,
each possibly carrying an embedded `error` string.  The pure
post-processing of `queryWithTime`/`query`, `requestWithTime`/`request`,
`execute` and `executeBatch` — everything after `await this.client...` —
is embedded below.  Floating-point `time` fields are not modelled. -/

inductive SqlValue where
  | vNull
  | vInt (n : Int)
  | vText (s : String)
  | vBool (b : Bool)
  deriving DecidableEq, Repr

structure RqliteArrayResult where
  columns : Option (List String)
  types : Option (List String)
  values : Option (List (List SqlValue))
  error : Option String
  rows_affected : Option Nat
  last_insert_id : Option Nat
  deriving DecidableEq, Repr

/-- Modelled from the spec: the class `RqliteError` of `types/rqlite.ts`
(not under src/) — "raised as a typed error carrying the remote store's
message"; `rqlite-service.ts` constructs it as
`new RqliteError(result.error, result.error)`. -/
structure RqliteError where
  message : String
  rqliteMessage : String
  deriving DecidableEq, Repr

structure RqliteAssociativeResult where
  columns : Option (List String)
  types : Option (List String)
  rows : List (List (String × SqlValue))
  error : Option String
  rows_affected : Option Nat
  last_insert_id : Option Nat
  deriving DecidableEq, Repr

/-- `checkResponseError` (rqlite-service.ts, lines 28-32): throw a typed
`RqliteError` iff the result's `error` field is truthy, i.e. present and
non-empty. -/
def checkResponseError (result : RqliteArrayResult) : Except RqliteError Unit :=
  match result.error with
  | some e => if e = "" then .ok () else .error ⟨e, e⟩
  | none => .ok ()

/-- `arrayToAssociative` (rqlite-service.ts, lines 37-70): zip each value
row with the column list, preserving column order. -/
def arrayToAssociative (r : RqliteArrayResult) : RqliteAssociativeResult :=
  match r.values, r.columns with
  | some values, some columns =>
    { columns := some columns
      types := r.types
      rows := values.map (fun valueArray => columns.zip valueArray)
      error := r.error
      rows_affected := r.rows_affected
      last_insert_id := r.last_insert_id }
  | _, _ =>
    { columns := r.columns
      types := r.types
      rows := []
      error := r.error
      rows_affected := r.rows_affected
      last_insert_id := r.last_insert_id }

/-- Post-processing of `queryWithTime`/`query` (rqlite-service.ts, lines
76-110) on the response's `results` array: inspect `results[0]` for an
embedded error before converting and returning it. -/
def queryPost (results : List RqliteArrayResult) :
    Except RqliteError RqliteAssociativeResult :=
  match results.head? with
  | some r =>
    match checkResponseError r with
    | .error e => .error e
    | .ok _ => .ok (arrayToAssociative r)
  | none =>
    .ok { columns := none, types := none, rows := [], error := none,
          rows_affected := none, last_insert_id := none }

/-- Post-processing of `requestWithTime`/`request` (rqlite-service.ts,
lines 119-163): inspect `results[0]`, then return the associative
conversion for reads (`'values' in arrayResult`) or the raw result for
writes. -/
def requestPost (results : List RqliteArrayResult) :
    Except RqliteError (RqliteAssociativeResult ⊕ RqliteArrayResult) :=
  match results.head? with
  | some r =>
    match checkResponseError r with
    | .error e => .error e
    | .ok _ =>
      if r.values.isSome then .ok (.inl (arrayToAssociative r))
      else .ok (.inr r)
  | none =>
    .ok (.inr { columns := none, types := none, values := none,
                error := none, rows_affected := none, last_insert_id := none })

/-- Post-processing of `execute` (rqlite-service.ts, lines 169-185):
inspect `results[0]` for an embedded error before returning it. -/
def executePost (results : List RqliteArrayResult) :
    Except RqliteError RqliteArrayResult :=
  match results.head? with
  | some r =>
    match checkResponseError r with
    | .error e => .error e
    | .ok _ => .ok r
  | none =>
    .ok { columns := none, types := none, values := none, error := none,
          rows_affected := none, last_insert_id := none }

/-- Post-processing of `executeBatch` (rqlite-service.ts, lines 191-209):
inspect every per-statement result for an embedded error before returning
the result list. -/
def executeBatchPost (results : List RqliteArrayResult) :
    Except RqliteError (List RqliteArrayResult) :=
  match results with
  | [] => .ok []
  | r :: rest =>
    match checkResponseError r with
    | .error e => .error e
    | .ok _ =>
      match executeBatchPost rest with
      | .error e => .error e
      | .ok _ => .ok (r :: rest)

/-! ## The export fetch pipeline (export-service.ts)

`queryWithPagination` (rqlite-service.ts, lines 316-332) reads page `p`
with `LIMIT pageSize OFFSET (p-1)*pageSize`; the remote store's
`LIMIT`/`OFFSET` semantics on a table whose rows (in their stored order)
are the list `table` is `take`/`drop`.  Rows are an abstract type `α`.

`fetchWithConcurrency` (export-service.ts, lines 164-202) walks the
1-based pages in groups of at most `concurrency`, fetches each group
concurrently, and forwards each non-empty row batch to the formatting
worker in ascending page order within the group.  The grouping loop is
embedded with an explicit fuel argument (initially the number of pages,
an upper bound on the number of iterations) so that it stays a structural
recursion; the fuel never runs out. -/

def queryWithPagination (table : List α) (page pageSize : Nat) : List α :=
  (table.drop ((page - 1) * pageSize)).take pageSize

/-- The page groups taken by the `while (currentPage <= totalPages)` loop:
up to `conc` pages per iteration, in order. -/
def chunkPagesAux (conc : Nat) : Nat → List β → List (List β)
  | 0, _ => []
  | _, [] => []
  | fuel + 1, p :: rest =>
    (p :: rest.take (conc - 1)) :: chunkPagesAux conc fuel (rest.drop (conc - 1))

def chunkPages (conc : Nat) (pages : List β) : List (List β) :=
  chunkPagesAux conc pages.length pages

/-- `fetchWithConcurrency` without cancellation: the sequence of row
batches forwarded to the formatting worker (`onBatch`), in order. -/
def fetchWithConcurrency (table : List α) (pageSize conc : Nat) : List (List α) :=
  let totalRows := table.length
  let totalPages := (totalRows + pageSize - 1) / pageSize
  let groups := chunkPages conc (List.range' 1 totalPages)
  groups.foldl
    (fun acc group =>
      let results := group.map (fun page => queryWithPagination table page pageSize)
      acc ++ results.filter (fun r => !r.isEmpty))
    []

example : fetchWithConcurrency [10, 20, 30, 40, 50] 2 3 = [[10, 20], [30, 40], [50]] := by
  decide

/-! ## Cancellation (claim C3)

Cancellation is cooperative: `this.cancelled` is polled at iteration
boundaries.  The export fetch loop polls it in the `while` condition
before issuing each page group, and once more in the `.then` callback
after the loop (export-service.ts, lines 143-150, 177).  The successive
polls are modelled by a monotone observation schedule `obs : Nat → Bool`
(`obs i` is the flag's value at the i-th poll; once true, always true). -/

inductive ExportPhase where
  | fetching
  | formatting
  | complete
  | error
  | cancelled
  deriving DecidableEq, Repr

/-- The export fetch loop under the observation schedule `obs`, starting
at poll index `g` with the given pages left: returns the page groups it
issues (each a concurrent fan-out of read calls) and the poll index at
loop exit.  Fueled like `chunkPages`. -/
def exportFetchLoopAux (conc : Nat) (obs : Nat → Bool) :
    Nat → List Nat → Nat → List (List Nat) × Nat
  | 0, _, g => ([], g)
  | _, [], g => ([], g)
  | fuel + 1, p :: rest, g =>
    if obs g then ([], g)
    else
      let out := exportFetchLoopAux conc obs fuel (rest.drop (conc - 1)) (g + 1)
      ((p :: rest.take (conc - 1)) :: out.1, out.2)

def exportFetchLoop (conc : Nat) (obs : Nat → Bool) (pages : List Nat) :
    List (List Nat) × Nat :=
  exportFetchLoopAux conc obs pages.length pages 0

/-- The final phase set by the `.then` callback (export-service.ts, lines
143-150): one more poll after the loop; if the flag is set the service
resolves `null` with phase `cancelled`, otherwise it posts `finish` and
the formatting worker eventually drives the phase to `complete`. -/
def exportFinalPhase (conc totalPages : Nat) (obs : Nat → Bool) : ExportPhase :=
  let out := exportFetchLoop conc obs (List.range' 1 totalPages)
  if obs (out.2 + 1) then .cancelled else .complete

/-! The import orchestrator (`ImportService.runImport`,
import-service.ts, lines 227-387) reacts to worker messages, network
completions and `cancel()`; its control state is embedded as a state
machine stepped by one event per suspension point:

* `workerBatch n` — a `batch` message with `n` rows arrives: it is queued,
  progress is set to `parsing`, and `processBatchQueue()` is started
  (lines 313-332);
* `workerComplete` — the worker's `complete` message arrives and
  `waitForInserts` begins (lines 340-363);
* `netDone` — the in-flight `executeBatch` call resolves: the row counter
  advances, progress is set to `inserting`, and the dispatch `while` loop
  either issues the next queued batch or exits (lines 268-295);
* `tick` — one iteration of the `waitForInserts` polling loop (lines
  342-346): re-check the exit condition, then re-invoke
  `processBatchQueue`;
* `cancelInvoke` — `cancel()` (lines 220-225) sets the flag.

Batches are identified by their row count.  `callsIssued` is the ghost
list of batches actually handed to `rqlite.executeBatch`. -/

inductive ImportPhase where
  | parsing
  | inserting
  | complete
  | error
  | cancelled
  deriving DecidableEq, Repr

structure ImportOrch where
  cancelled : Bool
  queue : List Nat
  isInserting : Bool
  inFlight : Option Nat
  callsIssued : List Nat
  rowsInserted : Nat
  completeReceived : Bool
  resolved : Bool
  phase : ImportPhase
  deriving DecidableEq, Repr

def importInit : ImportOrch :=
  { cancelled := false, queue := [], isInserting := false, inFlight := none,
    callsIssued := [], rowsInserted := 0, completeReceived := false,
    resolved := false, phase := .parsing }

/-- Entry of `processBatchQueue` (lines 263-270) up to its first `await`:
return if already inserting, queue empty, or cancelled; otherwise pop the
first batch and issue `executeBatch` for it. -/
def tryDispatch (s : ImportOrch) : ImportOrch :=
  if s.isInserting ∨ s.cancelled then s
  else
    match s.queue with
    | [] => s
    | b :: rest =>
      { s with
          isInserting := true
          queue := rest
          inFlight := some b
          callsIssued := s.callsIssued ++ [b] }

/-- Exit of `waitForInserts` (lines 347-359): clean up and set the
terminal phase. -/
def importFinalize (s : ImportOrch) : ImportOrch :=
  { s with resolved := true
           phase := if s.cancelled then .cancelled else .complete }

inductive ImportEvent where
  | workerBatch (n : Nat)
  | workerComplete
  | netDone
  | cancelInvoke
  | tick
  deriving DecidableEq, Repr

def importStep (s : ImportOrch) : ImportEvent → ImportOrch
  | .workerBatch n =>
    -- the worker posts batches only before its complete message, and none
    -- can arrive after the worker is terminated at resolution
    if s.completeReceived ∨ s.resolved then s
    else tryDispatch { s with queue := s.queue ++ [n], phase := .parsing }
  | .workerComplete =>
    if s.completeReceived ∨ s.resolved then s
    else
      let s1 := { s with completeReceived := true }
      if s1.queue.isEmpty ∧ ¬s1.isInserting then importFinalize s1 else s1
  | .netDone =>
    match s.inFlight with
    | none => s
    | some b =>
      let s1 := { s with
                    inFlight := none
                    rowsInserted := s.rowsInserted + b
                    phase := .inserting }
      if ¬s1.queue.isEmpty ∧ ¬s1.cancelled then
        match s1.queue with
        | [] => { s1 with isInserting := false }
        | b2 :: rest =>
          { s1 with
              queue := rest
              inFlight := some b2
              callsIssued := s1.callsIssued ++ [b2] }
      else { s1 with isInserting := false }
  | .cancelInvoke => { s with cancelled := true }
  | .tick =>
    if s.completeReceived ∧ ¬s.resolved then
      if s.queue.isEmpty ∧ ¬s.isInserting then importFinalize s
      else tryDispatch s
    else s

def importRun (trace : List ImportEvent) : ImportOrch :=
  trace.foldl importStep importInit

/-- The dispatch-loop invariant of the worker's batching state: every
batch emitted so far is exactly full, the current batch is strictly below
the bound, and every counted row sits in exactly one of them. -/
def csvBatchInv (bs : Nat) (c : CSVCore) : Prop :=
  (∀ b ∈ c.batches, b.length = bs) ∧ c.currentBatch.length < bs ∧
    (c.batches.map List.length).sum + c.currentBatch.length = c.totalRows

def sqlBatchInv (bs : Nat) (c : SQLCore) : Prop :=
  (∀ b ∈ c.batches, b.length = bs) ∧ c.currentBatch.length < bs ∧
    (c.batches.map List.length).sum + c.currentBatch.length = c.totalRows

/-- Merge a pending segment onto the head of a later split's complete
segments (empty if there are none to merge into). -/
def mergeHead (p : List Nat) : List (List Nat) → List (List Nat)
  | [] => []
  | h :: t => (p ++ h) :: t

/-- The claim-side reading of "first keyword": the statement's maximal
leading run of ASCII letters. -/
def firstKeyword (s : List Nat) : List Nat :=
  s.takeWhile (fun c => (65 ≤ c ∧ c ≤ 90) ∨ (97 ≤ c ∧ c ≤ 122))

/-! ## Lemmas: the split/decode algebra behind chunk-boundary invariance -/

theorem splitOnChar_eq_splitParts (sep : Nat) (s : List Nat) :
    splitOnChar sep s = (splitParts sep s).1 ++ [(splitParts sep s).2] := by
  induction s with
  | nil => simp [splitOnChar, splitParts]
  | cons c cs ih =>
    by_cases hc : c = sep
    · simp [splitOnChar, splitParts, hc, ih]
    · simp only [splitOnChar, splitParts, hc, if_false, ih]
      rcases h : (splitParts sep cs).1 with _ | ⟨l0, rest⟩ <;> simp

theorem sep_not_mem_splitParts_snd (sep : Nat) (s : List Nat) :
    sep ∉ (splitParts sep s).2 := by
  induction s with
  | nil => simp [splitParts]
  | cons c cs ih =>
    by_cases hc : c = sep
    · simpa [splitParts, hc] using ih
    · simp only [splitParts, hc, if_false]
      rcases h : (splitParts sep cs).1 with _ | ⟨l0, rest⟩
      · simp only
        intro hmem
        rcases List.mem_cons.mp hmem with h1 | h1
        · exact hc h1.symm
        · exact ih h1
      · simpa using ih

theorem splitParts_sepFree (sep : Nat) (p : List Nat) (hp : sep ∉ p) :
    splitParts sep p = ([], p) := by
  induction p with
  | nil => rfl
  | cons c cs ih =>
    have hc : c ≠ sep := fun h => hp (h ▸ List.mem_cons_self c cs)
    have hcs : sep ∉ cs := fun h => hp (List.mem_cons_of_mem c h)
    simp [splitParts, hc, ih hcs]

/-- Splitting a concatenation: complete segments of the first part, then
the first part's pending tail merged into the second part's first
segment. -/
theorem splitParts_append (sep : Nat) (a b : List Nat) :
    splitParts sep (a ++ b) =
      ((splitParts sep a).1 ++ mergeHead (splitParts sep a).2 (splitParts sep b).1,
        if (splitParts sep b).1.isEmpty then (splitParts sep a).2 ++ (splitParts sep b).2
        else (splitParts sep b).2) := by
  induction a with
  | nil =>
    rcases hb : splitParts sep b with ⟨bl, br⟩
    rcases bl with _ | ⟨h0, t0⟩ <;> simp [splitParts, mergeHead, hb]
  | cons c cs ih =>
    by_cases hc : c = sep
    · simp [splitParts, hc, ih]
    · simp only [List.cons_append, splitParts, hc, if_false]
      rcases hcs : (splitParts sep cs).1 with _ | ⟨l0, rest⟩
      · rcases hb : (splitParts sep b).1 with _ | ⟨h0, t0⟩ <;>
          simp [ih, hcs, hb, mergeHead]
      · rcases hb : (splitParts sep b).1 with _ | ⟨h0, t0⟩ <;>
          simp [ih, hcs, hb, mergeHead]

theorem utf8Decode_append (st : Utf8DecState) (a b : List Nat) :
    utf8Decode st (a ++ b) =
      ((utf8Decode (utf8Decode st a).1 b).1,
        (utf8Decode st a).2 ++ (utf8Decode (utf8Decode st a).1 b).2) := by
  induction a generalizing st with
  | nil => simp [utf8Decode]
  | cons x xs ih =>
    simp [utf8Decode, ih (utf8Step st x).1, List.append_assoc]

/-- One chunk step after another equals one step on the concatenated
chunk: the decoder state, the pending buffer and the processed units all
agree.  This is the heart of chunk-boundary invariance. -/
theorem streamChunk_append (sep : Nat) (proc : σ → List Nat → σ)
    (s : StreamState σ) (a b : List Nat) :
    streamChunk sep proc (streamChunk sep proc s a) b =
      streamChunk sep proc s (a ++ b) := by
  have hdec := utf8Decode_append s.dec a b
  simp only [streamChunk, hdec]
  have hbufsplit :
      splitParts sep ((splitParts sep (s.buffer ++ (utf8Decode s.dec a).2)).2 ++
          (utf8Decode (utf8Decode s.dec a).1 b).2) =
        (mergeHead (splitParts sep (s.buffer ++ (utf8Decode s.dec a).2)).2
            (splitParts sep (utf8Decode (utf8Decode s.dec a).1 b).2).1,
          if (splitParts sep (utf8Decode (utf8Decode s.dec a).1 b).2).1.isEmpty then
            (splitParts sep (s.buffer ++ (utf8Decode s.dec a).2)).2 ++
              (splitParts sep (utf8Decode (utf8Decode s.dec a).1 b).2).2
          else (splitParts sep (utf8Decode (utf8Decode s.dec a).1 b).2).2) := by
    rw [splitParts_append, splitParts_sepFree sep _
      (sep_not_mem_splitParts_snd sep (s.buffer ++ (utf8Decode s.dec a).2))]
    simp
  rw [hbufsplit]
  rw [show s.buffer ++ ((utf8Decode s.dec a).2 ++ (utf8Decode (utf8Decode s.dec a).1 b).2) =
      (s.buffer ++ (utf8Decode s.dec a).2) ++ (utf8Decode (utf8Decode s.dec a).1 b).2 from
    (List.append_assoc _ _ _).symm]
  rw [splitParts_append sep (s.buffer ++ (utf8Decode s.dec a).2)
    (utf8Decode (utf8Decode s.dec a).1 b).2]
  simp [List.foldl_append]

/-- Folding the read loop over any chunk list equals one pass over the
concatenated bytes. -/
theorem foldl_streamChunk_flatten (sep : Nat) (proc : σ → List Nat → σ)
    (s : StreamState σ) (a : List Nat) (chunks : List (List Nat)) :
    chunks.foldl (streamChunk sep proc) (streamChunk sep proc s a) =
      streamChunk sep proc s (a ++ chunks.flatten) := by
  induction chunks generalizing a with
  | nil => simp
  | cons c cs ih =>
    simp only [List.foldl_cons, List.flatten_cons]
    rw [streamChunk_append, ih (a ++ c), List.append_assoc]

/-- Feeding an empty chunk from the initial stream state is a no-op. -/
theorem streamChunk_init_nil (sep : Nat) (proc : σ → List Nat → σ) (core0 : σ) :
    streamChunk sep proc ⟨utf8Init, [], core0⟩ [] = ⟨utf8Init, [], core0⟩ := rfl

/-- Any chunking of the input bytes produces the same stream state as one
single chunk. -/
theorem foldl_streamChunk_eq_single (sep : Nat) (proc : σ → List Nat → σ)
    (core0 : σ) (chunks : List (List Nat)) :
    chunks.foldl (streamChunk sep proc) ⟨utf8Init, [], core0⟩ =
      [chunks.flatten].foldl (streamChunk sep proc) ⟨utf8Init, [], core0⟩ := by
  cases chunks with
  | nil => simp [streamChunk_init_nil]
  | cons c cs =>
    simp only [List.foldl_cons, List.foldl_nil, List.flatten_cons]
    exact foldl_streamChunk_flatten sep proc _ c cs

/-- **C1.** For every byte sequence and every way of partitioning it into
consecutive chunks, the streaming decoder/line-splitter of the import
worker yields exactly the same ordered sequence of complete logical lines
(CSV) and statements (SQL) as processing the whole sequence as one single
chunk — including when a multi-byte UTF-8 character is split across a
chunk boundary, since the decoder state carries the undecoded trailing
bytes over. -/
theorem csv_sql_chunking_invariant (batchSize : Nat) (chunks : List (List Nat)) :
    (parseCSV batchSize chunks).linesSeen =
      (parseCSV batchSize [chunks.flatten]).linesSeen ∧
    (parseSQL batchSize chunks).stmtsSeen =
      (parseSQL batchSize [chunks.flatten]).stmtsSeen := by
  unfold parseCSV parseSQL
  rw [foldl_streamChunk_eq_single 10 (csvProcessLine batchSize) csvCoreInit chunks,
    foldl_streamChunk_eq_single 59 (sqlProcessStmt batchSize) sqlCoreInit chunks]
  exact ⟨rfl, rfl⟩

/-! ## Claim C6: the two-state quote machine of `parseCSVLine` -/

/-- **C6.** In the quoted state a doubled quote emits one literal quote
character and stays quoted; a single quote (not followed by another
quote) exits to unquoted; the separator `,` inside quotes is copied
literally and does not split fields.  In particular the data line
`2,"Bob, Jr."` parses to the fields `2` and `Bob, Jr.`, and
`3,"Carol ""C"""` parses to `3` and `Carol "C"`. -/
theorem csv_quote_machine :
    (∀ rest cur res, parseCSVLineLoop (34 :: 34 :: rest) true cur res =
      parseCSVLineLoop rest true (cur ++ [34]) res) ∧
    (∀ c rest cur res, c ≠ 34 → parseCSVLineLoop (34 :: c :: rest) true cur res =
      parseCSVLineLoop (c :: rest) false cur res) ∧
    (∀ rest cur res, parseCSVLineLoop (44 :: rest) true cur res =
      parseCSVLineLoop rest true (cur ++ [44]) res) ∧
    parseCSVLine (strCps "2,\"Bob, Jr.\"") = [strCps "2", strCps "Bob, Jr."] ∧
    parseCSVLine (strCps "3,\"Carol \"\"C\"\"\"") = [strCps "3", strCps "Carol \"C\""] := by
  refine ⟨fun rest cur res => rfl, ?_, fun rest cur res => rfl, by decide, by decide⟩
  intro c rest cur res hc
  conv_lhs => rw [parseCSVLineLoop.eq_def]
  split <;> simp_all

/-- Witness for `csv_quote_machine`: its one hypothesis (`c ≠ 34`)
discharged at the concrete character `,` (44). -/
theorem csv_quote_machine_witness :
    (44 : Nat) ≠ 34 ∧
      parseCSVLineLoop [34, 44] true [] [] = parseCSVLineLoop [44] false [] [] :=
  ⟨by decide, csv_quote_machine.2.1 44 [] [] [] (by decide)⟩

/-! ## Claim C9: field trimming and quoted whitespace -/

theorem parseCSVLineLoop_trim_raw (l : List Nat) (q : Bool) (cur : List Nat)
    (rres : List (List Nat)) :
    parseCSVLineLoop l q cur (rres.map jsTrim) =
      (parseCSVLineRawLoop l q cur rres).map jsTrim := by
  induction l, q, cur, rres using parseCSVLineRawLoop.induct <;>
    simp_all [parseCSVLineLoop, parseCSVLineRawLoop]

/-- **C9 counterexample.** The claim says leading/trailing whitespace
inside a quoted region is preserved: on `a," b ",c` the middle field
should come out as `" b "`.  The code instead trims the accumulated field
at the boundary, quoted or not, and produces `b`. -/
theorem csv_quoted_whitespace_trimmed :
    parseCSVLine (strCps "a,\" b \",c") = [strCps "a", strCps "b", strCps "c"] ∧
    [strCps "a", strCps "b", strCps "c"] ≠ [strCps "a", strCps " b ", strCps "c"] := by
  constructor
  · decide
  · decide

/-- **C9 (amended).** Every field produced by `parseCSVLine` is the
`trim` of the field content accumulated by the quote machine — whitespace
adjacent to a field boundary is removed whether it lay inside or outside
quotation marks; interior whitespace (and quoted separators) is
preserved.  Formally: `parseCSVLine` is the untrimmed quote machine
followed by trimming every field. -/
theorem csv_fields_trimmed (line : List Nat) :
    parseCSVLine line = (parseCSVLineRaw line).map jsTrim := by
  have h := parseCSVLineLoop_trim_raw line false [] []
  simpa [parseCSVLine, parseCSVLineRaw] using h

/-! ## Claim C7: the SQL statement splitter -/

theorem comment_not_insert (t : List Nat) (h : (strCps "--").isPrefixOf t = true) :
    isInsertStatement t = false := by
  have h2 : strCps "--" = [45, 45] := by decide
  have hI : strCps "INSERT" = [73, 78, 83, 69, 82, 84] := by decide
  rw [h2] at h
  cases t with
  | nil => simp [List.isPrefixOf] at h
  | cons c t2 =>
    simp only [List.isPrefixOf, Bool.and_eq_true, beq_iff_eq] at h
    simp [isInsertStatement, hI, jsToUpper, List.isPrefixOf, ← h.1, cpToUpper]

theorem sqlProcessStmt_stmtsSeen (bs : Nat) (s : SQLCore) (seg : List Nat) :
    (sqlProcessStmt bs s seg).stmtsSeen =
      s.stmtsSeen ++ if sqlKeeps (jsTrim seg) then [jsTrim seg] else [] := by
  by_cases he : jsTrim seg = []
  · simp [sqlProcessStmt, he, sqlKeeps]
  · by_cases hcm : (strCps "--").isPrefixOf (jsTrim seg) = true
    · simp [sqlProcessStmt, he, hcm, sqlKeeps, comment_not_insert _ hcm]
    · by_cases hi : isInsertStatement (jsTrim seg) = true
      · simp only [sqlProcessStmt]
        rw [if_pos (show sqlKeeps (jsTrim seg) = true by
            simp [sqlKeeps, List.isEmpty_iff, he, hi]),
          if_neg (show ¬(jsTrim seg = [] ∨ (strCps "--").isPrefixOf (jsTrim seg) = true) by
            simp [he, hcm]),
          if_pos hi]
        split <;> rfl
      · simp [sqlProcessStmt, he, hcm, hi, sqlKeeps]

theorem foldl_sqlProcessStmt_stmtsSeen (bs : Nat) (segs : List (List Nat)) (s : SQLCore) :
    (segs.foldl (sqlProcessStmt bs) s).stmtsSeen =
      s.stmtsSeen ++ ((segs.map jsTrim).filter sqlKeeps) := by
  induction segs generalizing s with
  | nil => simp
  | cons seg rest ih =>
    simp only [List.foldl_cons, List.map_cons, List.filter_cons]
    rw [ih, sqlProcessStmt_stmtsSeen]
    by_cases h : sqlKeeps (jsTrim seg) = true <;> simp [h]

theorem sqlFlush_stmtsSeen (c : SQLCore) : (sqlFlush c).stmtsSeen = c.stmtsSeen := by
  unfold sqlFlush
  split <;> rfl

theorem sqlFinalize_stmtsSeen (s : StreamState SQLCore) :
    (sqlFinalize s).stmtsSeen =
      s.core.stmtsSeen ++ if sqlKeeps (jsTrim s.buffer) then [jsTrim s.buffer] else [] := by
  unfold sqlFinalize
  rw [sqlFlush_stmtsSeen]
  unfold sqlRemainder
  by_cases he : jsTrim s.buffer = []
  · simp [he, sqlKeeps]
  · by_cases hi : isInsertStatement (jsTrim s.buffer) = true <;>
      simp [he, hi, sqlKeeps, List.isEmpty_iff]

/-- **C7 (amended).** On any input, the SQL splitter yields exactly the
split-on-`;` segments (the unterminated trailing segment included) that,
after trimming, are non-empty and whose uppercased text starts with the
prefix `INSERT` — a prefix match, not a first-keyword match.  Empty
segments, `--` comment lines (which can never match the prefix) and all
other statements are silently dropped without an error. -/
theorem sql_splitter_yield (bs : Nat) (input : List Nat) :
    (parseSQL bs [input]).stmtsSeen =
      ((splitOnChar 59 (utf8Decode utf8Init input).2).map jsTrim).filter sqlKeeps := by
  unfold parseSQL
  simp only [List.foldl_cons, List.foldl_nil]
  rw [sqlFinalize_stmtsSeen]
  simp only [streamChunk, List.nil_append]
  rw [foldl_sqlProcessStmt_stmtsSeen]
  rw [splitOnChar_eq_splitParts 59 (utf8Decode utf8Init input).2]
  simp only [List.map_append, List.filter_append, List.map_cons, List.map_nil,
    List.filter_cons, List.filter_nil, sqlCoreInit, List.nil_append]

/-- **C7 counterexample.** The splitter is claimed to yield exactly the
statements whose first keyword is `INSERT` (case-insensitively).  The
code matches the prefix `INSERT` instead: the statement
`INSERTED INTO t VALUES (1)`, whose first keyword is `INSERTED`, is
yielded anyway. -/
theorem sql_splitter_first_keyword_refuted :
    (parseSQL 500 [asciiBytes "INSERTED INTO t VALUES (1)"]).stmtsSeen =
      [strCps "INSERTED INTO t VALUES (1)"] ∧
    jsToUpper (firstKeyword (strCps "INSERTED INTO t VALUES (1)")) ≠ strCps "INSERT" := by
  constructor
  · decide
  · decide

/-! ## Claim C2: batch-size bound and row conservation -/

theorem mem_of_mem_dropLast' {α : Type} : ∀ {l : List α} {x : α}, x ∈ l.dropLast → x ∈ l
  | a :: b :: t, x, h => by
    rw [List.dropLast_cons₂] at h
    rcases List.mem_cons.mp h with h1 | h1
    · exact h1 ▸ List.mem_cons_self a (b :: t)
    · exact List.mem_cons_of_mem a (mem_of_mem_dropLast' h1)

/-- The shared "push one row, flush at the bound" step, factored out of
both loop bodies: pushing a row onto the current batch and flushing when
the bound is reached preserves the batching invariant. -/
theorem push_flush_inv (bs : Nat) (batches : List (List (List (List Nat))))
    (cb : List (List (List Nat))) (total : Nat) (row : List (List Nat))
    (h1 : ∀ b ∈ batches, b.length = bs) (h2 : cb.length < bs)
    (h3 : (batches.map List.length).sum + cb.length = total) :
    (if bs ≤ (cb ++ [row]).length then
        ((∀ b ∈ batches ++ [cb ++ [row]], b.length = bs) ∧ (0 : Nat) < bs ∧
          ((batches ++ [cb ++ [row]]).map List.length).sum + 0 = total + 1)
      else
        ((∀ b ∈ batches, b.length = bs) ∧ (cb ++ [row]).length < bs ∧
          (batches.map List.length).sum + (cb ++ [row]).length = total + 1)) := by
  by_cases hb : bs ≤ (cb ++ [row]).length
  · rw [if_pos hb]
    simp only [List.length_append, List.length_singleton] at hb
    refine ⟨?_, by omega, ?_⟩
    · intro b hbm
      rcases List.mem_append.mp hbm with h4 | h4
      · exact h1 b h4
      · simp only [List.mem_singleton] at h4
        subst h4
        simp only [List.length_append, List.length_singleton]
        omega
    · simp only [List.map_append, List.sum_append, List.map_cons, List.map_nil,
        List.sum_cons, List.sum_nil, List.length_append, List.length_singleton]
      omega
  · rw [if_neg hb]
    simp only [List.length_append, List.length_singleton] at hb ⊢
    exact ⟨h1, by omega, by omega⟩

theorem csvProcessLine_inv (bs : Nat) (c : CSVCore) (line : List Nat)
    (h : csvBatchInv bs c) : csvBatchInv bs (csvProcessLine bs c line) := by
  obtain ⟨h1, h2, h3⟩ := h
  simp only [csvProcessLine]
  by_cases ht : jsTrim line = []
  · rw [if_pos ht]; exact ⟨h1, h2, h3⟩
  · rw [if_neg ht]
    by_cases hf : c.isFirstLine = true
    · rw [if_pos hf]; exact ⟨h1, h2, h3⟩
    · rw [if_neg hf]
      have := push_flush_inv bs c.batches c.currentBatch c.totalRows
        (parseCSVLine (jsTrim line)) h1 h2 h3
      by_cases hb : bs ≤ (c.currentBatch ++ [parseCSVLine (jsTrim line)]).length
      · rw [if_pos hb]
        rw [if_pos hb] at this
        exact ⟨this.1, this.2.1, by simpa using this.2.2⟩
      · rw [if_neg hb]
        rw [if_neg hb] at this
        exact ⟨this.1, this.2.1, this.2.2⟩

theorem sqlProcessStmt_inv (bs : Nat) (c : SQLCore) (seg : List Nat)
    (h : sqlBatchInv bs c) : sqlBatchInv bs (sqlProcessStmt bs c seg) := by
  obtain ⟨h1, h2, h3⟩ := h
  simp only [sqlProcessStmt]
  by_cases ht : jsTrim seg = [] ∨ (strCps "--").isPrefixOf (jsTrim seg) = true
  · rw [if_pos ht]; exact ⟨h1, h2, h3⟩
  · rw [if_neg ht]
    by_cases hi : isInsertStatement (jsTrim seg) = true
    · rw [if_pos hi]
      have := push_flush_inv bs c.batches c.currentBatch c.totalRows
        [jsTrim seg] h1 h2 h3
      by_cases hb : bs ≤ (c.currentBatch ++ [[jsTrim seg]]).length
      · rw [if_pos hb]
        rw [if_pos hb] at this
        exact ⟨this.1, this.2.1, by simpa using this.2.2⟩
      · rw [if_neg hb]
        rw [if_neg hb] at this
        exact ⟨this.1, this.2.1, this.2.2⟩
    · rw [if_neg hi]; exact ⟨h1, h2, h3⟩

theorem foldl_pres {σ : Type} (P : σ → Prop) (f : σ → List Nat → σ)
    (hf : ∀ s a, P s → P (f s a)) :
    ∀ (l : List (List Nat)) (s : σ), P s → P (l.foldl f s) := by
  intro l
  induction l with
  | nil => intro s h; exact h
  | cons a t ih => intro s h; exact ih (f s a) (hf s a h)

theorem chunks_core_pres {σ : Type} (sep : Nat) (proc : σ → List Nat → σ)
    (P : σ → Prop) (hf : ∀ s a, P s → P (proc s a)) :
    ∀ (chunks : List (List Nat)) (s : StreamState σ), P s.core →
      P ((chunks.foldl (streamChunk sep proc) s)).core := by
  intro chunks
  induction chunks with
  | nil => intro s h; exact h
  | cons c t ih =>
    intro s h
    exact ih _ (foldl_pres P proc hf _ _ h)

/-- After the end-of-stream flush, given the relaxed invariant (current
batch no longer strictly below the bound, since the remainder row is
pushed without a flush check): every batch is bounded, all but the last
are exactly full, and the lengths sum to the row count. -/
theorem flush_conclusion (bs : Nat) (batches : List (List (List (List Nat))))
    (cb : List (List (List Nat))) (total : Nat)
    (k1 : ∀ b ∈ batches, b.length = bs) (k2 : cb.length ≤ bs)
    (k3 : (batches.map List.length).sum + cb.length = total) :
    ((∀ b ∈ (if cb ≠ [] then batches ++ [cb] else batches), b.length ≤ bs) ∧
      (∀ b ∈ (if cb ≠ [] then batches ++ [cb] else batches).dropLast, b.length = bs) ∧
      (((if cb ≠ [] then batches ++ [cb] else batches)).map List.length).sum = total) := by
  by_cases hne : cb ≠ []
  · rw [if_pos hne]
    refine ⟨?_, ?_, ?_⟩
    · intro b hbm
      rcases List.mem_append.mp hbm with h4 | h4
      · exact Nat.le_of_eq (k1 b h4)
      · simp only [List.mem_singleton] at h4
        exact h4 ▸ k2
    · intro b hbm
      rw [List.dropLast_concat] at hbm
      exact k1 b hbm
    · simp only [List.map_append, List.sum_append, List.map_cons, List.map_nil,
        List.sum_cons, List.sum_nil]
      omega
  · rw [if_neg hne]
    have hz : cb.length = 0 := by
      simp only [ne_eq, Decidable.not_not] at hne
      simp [hne]
    refine ⟨?_, ?_, ?_⟩
    · intro b hbm; exact Nat.le_of_eq (k1 b hbm)
    · intro b hbm; exact k1 b (mem_of_mem_dropLast' hbm)
    · omega

theorem csvFinalize_conclusion (bs : Nat) (s : StreamState CSVCore)
    (h : csvBatchInv bs s.core) :
    (∀ b ∈ (csvFinalize s).batches, b.length ≤ bs) ∧
    (∀ b ∈ (csvFinalize s).batches.dropLast, b.length = bs) ∧
    ((csvFinalize s).batches.map List.length).sum = (csvFinalize s).totalRows := by
  obtain ⟨h1, h2, h3⟩ := h
  have hk : (∀ b ∈ (csvRemainder s.buffer s.core).batches, b.length = bs) ∧
      (csvRemainder s.buffer s.core).currentBatch.length ≤ bs ∧
      ((csvRemainder s.buffer s.core).batches.map List.length).sum +
        (csvRemainder s.buffer s.core).currentBatch.length =
        (csvRemainder s.buffer s.core).totalRows := by
    unfold csvRemainder
    split
    · refine ⟨h1, ?_, ?_⟩
      · simp only [List.length_append, List.length_singleton]
        omega
      · simp only [List.length_append, List.length_singleton]
        omega
    · exact ⟨h1, Nat.le_of_lt h2, h3⟩
  obtain ⟨k1, k2, k3⟩ := hk
  have := flush_conclusion bs (csvRemainder s.buffer s.core).batches
    (csvRemainder s.buffer s.core).currentBatch
    (csvRemainder s.buffer s.core).totalRows k1 k2 k3
  unfold csvFinalize csvFlush
  by_cases hne : (csvRemainder s.buffer s.core).currentBatch ≠ []
  · rw [if_pos hne]
    rw [if_pos hne] at this
    exact this
  · rw [if_neg hne]
    rw [if_neg hne] at this
    exact this

theorem sqlFinalize_conclusion (bs : Nat) (s : StreamState SQLCore)
    (h : sqlBatchInv bs s.core) :
    (∀ b ∈ (sqlFinalize s).batches, b.length ≤ bs) ∧
    (∀ b ∈ (sqlFinalize s).batches.dropLast, b.length = bs) ∧
    ((sqlFinalize s).batches.map List.length).sum = (sqlFinalize s).totalRows := by
  obtain ⟨h1, h2, h3⟩ := h
  have hk : (∀ b ∈ (sqlRemainder s.buffer s.core).batches, b.length = bs) ∧
      (sqlRemainder s.buffer s.core).currentBatch.length ≤ bs ∧
      ((sqlRemainder s.buffer s.core).batches.map List.length).sum +
        (sqlRemainder s.buffer s.core).currentBatch.length =
        (sqlRemainder s.buffer s.core).totalRows := by
    unfold sqlRemainder
    split
    · split
      · refine ⟨h1, ?_, ?_⟩
        · simp only [List.length_append, List.length_singleton]
          omega
        · simp only [List.length_append, List.length_singleton]
          omega
      · exact ⟨h1, Nat.le_of_lt h2, h3⟩
    · exact ⟨h1, Nat.le_of_lt h2, h3⟩
  obtain ⟨k1, k2, k3⟩ := hk
  have := flush_conclusion bs (sqlRemainder s.buffer s.core).batches
    (sqlRemainder s.buffer s.core).currentBatch
    (sqlRemainder s.buffer s.core).totalRows k1 k2 k3
  unfold sqlFinalize sqlFlush
  by_cases hne : (sqlRemainder s.buffer s.core).currentBatch ≠ []
  · rw [if_pos hne]
    rw [if_pos hne] at this
    exact this
  · rw [if_neg hne]
    rw [if_neg hne] at this
    exact this

/-- **C2.** For every input (as a list of byte chunks) and every batch
size ≥ 1, every `batch` message emitted by the import worker — CSV and
SQL alike — contains at most `batchSize` rows; every batch but the last
is exactly full (only the final flushed batch may be shorter); and the
batch lengths sum to the total row count reported by the worker's final
`complete` message. -/
theorem import_batches_bounded (batchSize : Nat) (hbs : 1 ≤ batchSize)
    (chunks : List (List Nat)) :
    ((∀ b ∈ (parseCSV batchSize chunks).batches, b.length ≤ batchSize) ∧
      (∀ b ∈ (parseCSV batchSize chunks).batches.dropLast, b.length = batchSize) ∧
      ((parseCSV batchSize chunks).batches.map List.length).sum =
        (parseCSV batchSize chunks).totalRows) ∧
    ((∀ b ∈ (parseSQL batchSize chunks).batches, b.length ≤ batchSize) ∧
      (∀ b ∈ (parseSQL batchSize chunks).batches.dropLast, b.length = batchSize) ∧
      ((parseSQL batchSize chunks).batches.map List.length).sum =
        (parseSQL batchSize chunks).totalRows) := by
  constructor
  · apply csvFinalize_conclusion
    apply chunks_core_pres 10 (csvProcessLine batchSize) (csvBatchInv batchSize)
      (fun s a h => csvProcessLine_inv batchSize s a h)
    exact ⟨by simp [csvCoreInit], by simpa [csvCoreInit] using hbs, by simp [csvCoreInit]⟩
  · apply sqlFinalize_conclusion
    apply chunks_core_pres 59 (sqlProcessStmt batchSize) (sqlBatchInv batchSize)
      (fun s a h => sqlProcessStmt_inv batchSize s a h)
    exact ⟨by simp [sqlCoreInit], by simpa [sqlCoreInit] using hbs, by simp [sqlCoreInit]⟩

/-- Witness for `import_batches_bounded`: the spec's own scenario — the
3-row CSV imported with batch size 2 gives batches of sizes 2 and 1
summing to the reported row count 3. -/
theorem import_batches_bounded_witness :
    1 ≤ 2 ∧
    ((parseCSV 2 [asciiBytes "id,name\n1,Alice\n2,\"Bob, Jr.\"\n3,\"Carol \"\"C\"\"\""]).batches.map
        List.length).sum =
      (parseCSV 2 [asciiBytes "id,name\n1,Alice\n2,\"Bob, Jr.\"\n3,\"Carol \"\"C\"\"\""]).totalRows :=
  ⟨by decide,
    (import_batches_bounded 2 (by decide)
      [asciiBytes "id,name\n1,Alice\n2,\"Bob, Jr.\"\n3,\"Carol \"\"C\"\"\""]).1.2.2⟩

/-! ## Claim C4: embedded errors are inspected before results are used -/

theorem checkResponseError_error (r : RqliteArrayResult) (err : RqliteError)
    (h : checkResponseError r = .error err) :
    ∃ e, r.error = some e ∧ e ≠ "" ∧ err = ⟨e, e⟩ := by
  obtain ⟨cols, types, values, error, ra, li⟩ := r
  rcases error with _ | e
  · simp [checkResponseError] at h
  · by_cases he : e = ""
    · simp [checkResponseError, he] at h
    · simp [checkResponseError, he] at h
      refine ⟨e, rfl, he, ?_⟩
      rcases err with ⟨m1, m2⟩
      simp only [RqliteError.mk.injEq] at h ⊢
      exact ⟨h.1.symm, h.2.symm⟩

/-- **C4.** Every remote-store response is inspected for an embedded
error field before its results are used, regardless of transport-level
success: for `query`, `request` and `execute` (single-statement calls,
one result in the response) and for the batched `executeBatch` (one
result per statement), any per-statement result carrying a non-empty
`error` makes the call return a typed `RqliteError` carrying the remote
store's message instead of the result. -/
theorem embedded_errors_raised :
    (∀ (r : RqliteArrayResult) (e : String), r.error = some e → e ≠ "" →
      queryPost [r] = .error ⟨e, e⟩ ∧ requestPost [r] = .error ⟨e, e⟩ ∧
        executePost [r] = .error ⟨e, e⟩) ∧
    (∀ (results : List RqliteArrayResult) (r : RqliteArrayResult) (e : String),
      r ∈ results → r.error = some e → e ≠ "" →
      ∃ e2, e2 ≠ "" ∧ (∃ r2 ∈ results, r2.error = some e2) ∧
        executeBatchPost results = .error ⟨e2, e2⟩) := by
  constructor
  · intro r e he hne
    have hc : checkResponseError r = .error ⟨e, e⟩ := by
      simp [checkResponseError, he, hne]
    refine ⟨?_, ?_, ?_⟩ <;> simp [queryPost, requestPost, executePost, hc]
  · intro results
    induction results with
    | nil => intro r e h; simp at h
    | cons r0 rest ih =>
      intro r e hmem he hne
      cases hc0 : checkResponseError r0 with
      | error err =>
        obtain ⟨e0, he0, hne0, herr⟩ := checkResponseError_error r0 err hc0
        refine ⟨e0, hne0, ⟨r0, List.mem_cons_self r0 rest, he0⟩, ?_⟩
        simp [executeBatchPost, hc0, herr]
      | ok u =>
        have hr : r ∈ rest := by
          rcases List.mem_cons.mp hmem with h1 | h1
          · exfalso
            subst h1
            simp [checkResponseError, he, hne] at hc0
          · exact h1
        obtain ⟨e2, hne2, ⟨r2, hr2m, hr2e⟩, hpost⟩ := ih r e hr he hne
        refine ⟨e2, hne2, ⟨r2, List.mem_cons_of_mem r0 hr2m, hr2e⟩, ?_⟩
        simp [executeBatchPost, hc0, hpost]

/-- Witness for `embedded_errors_raised`: a concrete HTTP-200 response
whose single result embeds a SQL error is turned into a raised
`RqliteError` by the query path. -/
theorem embedded_errors_raised_witness :
    queryPost [⟨none, none, none, some "UNIQUE constraint failed: t.id", none, none⟩] =
      .error ⟨"UNIQUE constraint failed: t.id", "UNIQUE constraint failed: t.id"⟩ :=
  (embedded_errors_raised.1
    ⟨none, none, none, some "UNIQUE constraint failed: t.id", none, none⟩
    "UNIQUE constraint failed: t.id" rfl (by decide)).1

/-! ## Claims C5 and C10: parameterized statements -/

theorem count_jsJoin_zero (sep : List Nat) (hsep : sep.count 63 = 0) :
    ∀ l : List (List Nat), (∀ x ∈ l, x.count 63 = 0) → (jsJoin sep l).count 63 = 0
  | [], _ => by simp [jsJoin]
  | [x], h => by simpa [jsJoin] using h x (by simp)
  | x :: y :: rest, h => by
    have hr := count_jsJoin_zero sep hsep (y :: rest) (fun z hz => h z (List.mem_cons_of_mem x hz))
    simp only [jsJoin, List.count_append]
    rw [h x (List.mem_cons_self x (y :: rest)), hsep, hr]

theorem count_placeholders_join :
    ∀ headers : List (List Nat),
      (jsJoin (strCps ", ") (headers.map fun _ => strCps "?")).count 63 = headers.length
  | [] => by simp [jsJoin]
  | [h] => by simp [jsJoin, strCps]
  | h :: h2 :: rest => by
    have hr := count_placeholders_join (h2 :: rest)
    have c1 : (strCps "?").count 63 = 1 := by decide
    have c2 : (strCps ", ").count 63 = 0 := by decide
    simp only [List.map_cons, jsJoin, List.count_append, List.length_cons] at hr ⊢
    omega

theorem count_headers_join_zero (headers : List (List Nat)) (h : ∀ x ∈ headers, 63 ∉ x) :
    (jsJoin (strCps ", ") (headers.map fun x => strCps "\"" ++ x ++ strCps "\"")).count 63 = 0 := by
  apply count_jsJoin_zero (strCps ", ") (by decide)
  intro x hx
  rcases List.mem_map.mp hx with ⟨y, hy, hxy⟩
  subst hxy
  simp only [List.count_append]
  have h1 : (strCps "\"").count 63 = 0 := by decide
  rw [h1, List.count_eq_zero.mpr (h y hy)]

theorem csvInsertSql_count (tableName : List Nat) (headers : List (List Nat))
    (h1 : 63 ∉ tableName) (h2 : ∀ h ∈ headers, 63 ∉ h) :
    countPlaceholders (csvInsertSql tableName headers) = headers.length := by
  unfold countPlaceholders csvInsertSql
  simp only [List.count_append]
  rw [List.count_eq_zero.mpr h1, count_headers_join_zero headers h2,
    count_placeholders_join headers]
  have c1 : (strCps "INSERT INTO \"").count 63 = 0 := by decide
  have c2 : (strCps "\" (").count 63 = 0 := by decide
  have c3 : (strCps ") VALUES (").count 63 = 0 := by decide
  have c4 : (strCps ")").count 63 = 0 := by decide
  omega

/-- **C5.** For every cell-edit value (including values containing `'`,
`;` or SQL keywords) the generated write call is a parameterized
statement whose SQL template is independent of the user values: two edits
differing only in the values produce the identical template; the values
appear only in the ordered bound-value list; and (whenever the table,
column and key names themselves contain no `?`) the template contains
exactly one `?` per bound value.  The same holds for every CSV-import row
statement built by the dispatch loop. -/
theorem parameterized_write_templates :
    (∀ tableName column primaryKey v pkv v2 pkv2 : List Nat,
      (cellEditStatement tableName column primaryKey v pkv).1 =
        (cellEditStatement tableName column primaryKey v2 pkv2).1 ∧
      (cellEditStatement tableName column primaryKey v pkv).2 = [v, pkv] ∧
      (63 ∉ tableName → 63 ∉ column → 63 ∉ primaryKey →
        countPlaceholders (cellEditStatement tableName column primaryKey v pkv).1 = 2)) ∧
    (∀ (tableName : List Nat) (headers row row2 : List (List Nat)),
      (csvRowStatement tableName headers row).1 =
        (csvRowStatement tableName headers row2).1 ∧
      (csvRowStatement tableName headers row).2 = row ∧
      (63 ∉ tableName → (∀ h ∈ headers, 63 ∉ h) →
        countPlaceholders (csvRowStatement tableName headers row).1 = headers.length)) := by
  constructor
  · intro tableName column primaryKey v pkv v2 pkv2
    refine ⟨rfl, rfl, ?_⟩
    intro h1 h2 h3
    unfold countPlaceholders cellEditStatement
    simp only [List.count_append]
    rw [List.count_eq_zero.mpr h1, List.count_eq_zero.mpr h2, List.count_eq_zero.mpr h3]
    decide
  · intro tableName headers row row2
    refine ⟨rfl, rfl, ?_⟩
    intro h1 h2
    exact csvInsertSql_count tableName headers h1 h2

/-- Witness for `parameterized_write_templates`: a hostile cell-edit
value never reaches the template — the template for editing
`users.name` by key `id` has exactly 2 placeholders even when the new
value is a SQL-injection attempt. -/
theorem parameterized_write_templates_witness :
    countPlaceholders (cellEditStatement (strCps "users") (strCps "name") (strCps "id")
        (strCps "x; DROP TABLE users") (strCps "7")).1 = 2 :=
  (parameterized_write_templates.1 (strCps "users") (strCps "name") (strCps "id")
    (strCps "x; DROP TABLE users") (strCps "7") [] []).2.2
    (by decide) (by decide) (by decide)

/-- **C10 counterexample.** A 2-column CSV (`a,b`) with the ragged data
row `1,2,3` produces a statement whose template has 2 placeholders (one
per captured header) but whose bound-value list has 3 values — the
counts do not match for rows whose field count differs from the header
count. -/
theorem csv_row_value_count_mismatch :
    parseCSVLine (strCps "a,b") = [strCps "a", strCps "b"] ∧
    parseCSVLine (strCps "1,2,3") = [strCps "1", strCps "2", strCps "3"] ∧
    countPlaceholders (csvRowStatement (strCps "t") [strCps "a", strCps "b"]
      [strCps "1", strCps "2", strCps "3"]).1 = 2 ∧
    (csvRowStatement (strCps "t") [strCps "a", strCps "b"]
      [strCps "1", strCps "2", strCps "3"]).2.length = 3 ∧
    (2 : Nat) ≠ 3 := by
  refine ⟨by decide, by decide, by decide, by decide, by decide⟩

/-- **C10 (amended).** For every CSV-import statement: the template
contains one `?` placeholder per captured header column (whenever the
names contain no `?`), the bound-value list is exactly the row's field
list, and the two counts agree precisely when the row's field count
equals the header count — not for every parsed row. -/
theorem csv_row_statement_counts (tableName : List Nat) (headers row : List (List Nat))
    (h1 : 63 ∉ tableName) (h2 : ∀ h ∈ headers, 63 ∉ h) :
    countPlaceholders (csvRowStatement tableName headers row).1 = headers.length ∧
    (csvRowStatement tableName headers row).2.length = row.length ∧
    (row.length = headers.length →
      (csvRowStatement tableName headers row).2.length =
        countPlaceholders (csvRowStatement tableName headers row).1) := by
  have hc2 : countPlaceholders (csvRowStatement tableName headers row).1 = headers.length :=
    csvInsertSql_count tableName headers h1 h2
  exact ⟨hc2, rfl, fun hl => by rw [hc2]; exact hl⟩

/-- Witness for `csv_row_statement_counts`: the well-formed row case —
2 headers, 2 values, counts agree. -/
theorem csv_row_statement_counts_witness :
    countPlaceholders (csvRowStatement (strCps "t") [strCps "a", strCps "b"]
      [strCps "1", strCps "2"]).1 = 2 :=
  (csv_row_statement_counts (strCps "t") [strCps "a", strCps "b"]
    [strCps "1", strCps "2"] (by decide) (by decide)).1

/-! ## Claim C8: the export fetch loop -/

theorem chunkPagesAux_flatten {β : Type} (conc : Nat) :
    ∀ (fuel : Nat) (l : List β), l.length ≤ fuel →
      (chunkPagesAux conc fuel l).flatten = l := by
  intro fuel
  induction fuel with
  | zero =>
    intro l hl
    have h0 : l = [] := List.length_eq_zero.mp (Nat.le_zero.mp hl)
    subst h0
    rfl
  | succ n ih =>
    intro l hl
    cases l with
    | nil => rfl
    | cons p rest =>
      simp only [chunkPagesAux, List.flatten_cons]
      rw [ih (rest.drop (conc - 1))
        (by simp only [List.length_drop]; simp at hl; omega)]
      simp [List.take_append_drop]

theorem chunkPagesAux_size {β : Type} (conc : Nat) (hc : 1 ≤ conc) :
    ∀ (fuel : Nat) (l : List β) (g : List β),
      g ∈ chunkPagesAux conc fuel l → g.length ≤ conc := by
  intro fuel
  induction fuel with
  | zero => intro l g hg; cases l <;> simp [chunkPagesAux] at hg
  | succ n ih =>
    intro l g hg
    cases l with
    | nil => simp [chunkPagesAux] at hg
    | cons p rest =>
      simp only [chunkPagesAux] at hg
      rcases List.mem_cons.mp hg with h1 | h1
      · subst h1
        have := List.length_take_le (conc - 1) rest
        simp only [List.length_cons]
        omega
      · exact ih _ g h1

theorem flatten_slices {α : Type} (ps : Nat) (hps : 1 ≤ ps) :
    ∀ (n : Nat) (l : List α), l.length ≤ n →
      ((List.range ((l.length + ps - 1) / ps)).map
        (fun i => (l.drop (i * ps)).take ps)).flatten = l := by
  intro n
  induction n with
  | zero =>
    intro l hl
    have h0 : l = [] := List.length_eq_zero.mp (Nat.le_zero.mp hl)
    subst h0
    have hq : (0 + ps - 1) / ps = 0 := Nat.div_eq_of_lt (by omega)
    simp [hq]
  | succ n ih =>
    intro l hl
    rcases hl0 : l with _ | ⟨x, xs⟩
    · have hq : (0 + ps - 1) / ps = 0 := Nat.div_eq_of_lt (by omega)
      simp [hq]
    · rw [← hl0]
      have hlen : 1 ≤ l.length := by rw [hl0]; simp
      have hk : (l.length + ps - 1) / ps = (l.length - 1) / ps + 1 := by
        have h1 : l.length + ps - 1 = (l.length - 1) + 1 * ps := by omega
        rw [h1, Nat.add_mul_div_right _ _ (by omega : 0 < ps)]
      have hm : (l.length - 1) / ps = ((l.drop ps).length + ps - 1) / ps := by
        simp only [List.length_drop]
        rcases le_or_lt l.length ps with hle | hlt
        · rw [Nat.div_eq_of_lt (by omega), Nat.div_eq_of_lt (by omega)]
        · congr 1
          omega
      rw [hk, List.range_succ_eq_map]
      simp only [List.map_cons, List.map_map, List.flatten_cons, Nat.zero_mul,
        List.drop_zero]
      have htail : ((fun i => (l.drop (i * ps)).take ps) ∘ Nat.succ) =
          (fun i => (((l.drop ps).drop (i * ps)).take ps)) := by
        funext i
        simp only [Function.comp_apply, List.drop_drop]
        congr 2
        have : Nat.succ i * ps = i * ps + ps := Nat.succ_mul i ps
        omega
      rw [htail, hm, ih (l.drop ps)
        (by simp only [List.length_drop]; omega)]
      exact List.take_append_drop ps l

theorem chunkPages_flatten {β : Type} (conc : Nat) (l : List β) :
    (chunkPages conc l).flatten = l :=
  chunkPagesAux_flatten conc _ _ (Nat.le_refl _)

theorem foldl_append_eq_flatten_map {α : Type} (F : List Nat → List (List α)) :
    ∀ (groups : List (List Nat)) (acc : List (List α)),
      groups.foldl (fun a g => a ++ F g) acc = acc ++ (groups.map F).flatten := by
  intro groups
  induction groups with
  | nil => intro acc; simp
  | cons g rest ih =>
    intro acc
    simp only [List.foldl_cons, List.map_cons, List.flatten_cons]
    rw [ih (acc ++ F g), List.append_assoc]

theorem flatten_filter_nonempty {α : Type} (rs : List (List α)) :
    (rs.filter (fun r => !r.isEmpty)).flatten = rs.flatten := by
  induction rs with
  | nil => rfl
  | cons r rest ih =>
    rcases r with _ | ⟨a, t⟩ <;> simp [List.filter_cons, ih]

theorem flatten_flatten {α : Type} :
    ∀ ll : List (List (List α)), ll.flatten.flatten = (ll.map List.flatten).flatten := by
  intro ll
  induction ll with
  | nil => rfl
  | cons h t ih => simp [List.flatten_append, ih]

theorem flatten_map_flatten_map {α : Type} (f : Nat → List α) :
    ∀ groups : List (List Nat),
      (groups.map (fun g => (g.map f).flatten)).flatten = (groups.flatten.map f).flatten := by
  intro groups
  induction groups with
  | nil => rfl
  | cons g rest ih =>
    simp [List.map_append, List.flatten_append, ih]

/-- **C8.** The export fetch loop issues the 1-based pages in consecutive
groups of at most `concurrency`, covering all pages in ascending order;
page `p` reads `LIMIT pageSize OFFSET (p-1)*pageSize`; and the row
batches forwarded to the formatter (group by group, ascending page order
inside each group, non-empty batches only) concatenate to exactly the
table's rows in their original order. -/
theorem export_fetch_ordered {α : Type} (table : List α) (pageSize concurrency : Nat)
    (hps : 1 ≤ pageSize) (hc : 1 ≤ concurrency) :
    (∀ g ∈ chunkPages concurrency
        (List.range' 1 ((table.length + pageSize - 1) / pageSize)),
      g.length ≤ concurrency) ∧
    (chunkPages concurrency
        (List.range' 1 ((table.length + pageSize - 1) / pageSize))).flatten =
      List.range' 1 ((table.length + pageSize - 1) / pageSize) ∧
    (∀ page, queryWithPagination table page pageSize =
      (table.drop ((page - 1) * pageSize)).take pageSize) ∧
    (fetchWithConcurrency table pageSize concurrency).flatten = table := by
  refine ⟨?_, ?_, fun page => rfl, ?_⟩
  · intro g hg
    exact chunkPagesAux_size concurrency hc _ _ g hg
  · exact chunkPagesAux_flatten concurrency _ _ (Nat.le_refl _)
  · unfold fetchWithConcurrency
    rw [foldl_append_eq_flatten_map]
    simp only [List.nil_append]
    rw [flatten_flatten, List.map_map]
    have hF : (List.flatten ∘ fun g : List Nat =>
        ((g.map (fun page => queryWithPagination table page pageSize)).filter
          (fun r => !r.isEmpty))) =
        (fun g : List Nat =>
          ((g.map (fun page => queryWithPagination table page pageSize))).flatten) := by
      funext g
      exact flatten_filter_nonempty _
    rw [hF, flatten_map_flatten_map, chunkPages_flatten,
      List.range'_eq_map_range, List.map_map]
    have hfetch : ((fun page => queryWithPagination table page pageSize) ∘ (1 + ·)) =
        (fun i => (table.drop (i * pageSize)).take pageSize) := by
      funext i
      simp only [Function.comp_apply, queryWithPagination]
      have h1 : 1 + i - 1 = i := by omega
      rw [h1]
    rw [hfetch]
    exact flatten_slices pageSize hps table.length table (Nat.le_refl _)

/-- Witness for `export_fetch_ordered`: 5 rows, page size 2, concurrency
3 — the forwarded batches concatenate to the original table. -/
theorem export_fetch_ordered_witness :
    (fetchWithConcurrency [0, 1, 2, 3, 4] 2 3).flatten = [0, 1, 2, 3, 4] :=
  (export_fetch_ordered [0, 1, 2, 3, 4] 2 3 (by decide) (by decide)).2.2.2

/-! ## Claim C3: cancellation -/

/-- Once the orchestrator's flag is set, no step of the import machine
issues a further network call, and the flag stays set. -/
theorem importStep_cancelled (s : ImportOrch) (e : ImportEvent) (h : s.cancelled = true) :
    (importStep s e).cancelled = true ∧ (importStep s e).callsIssued = s.callsIssued := by
  cases e with
  | workerBatch n =>
    simp only [importStep]
    split
    · exact ⟨h, rfl⟩
    · simp [tryDispatch, h]
  | workerComplete =>
    simp only [importStep]
    split
    · exact ⟨h, rfl⟩
    · split
      · simp [importFinalize, h]
      · exact ⟨h, rfl⟩
  | netDone =>
    simp only [importStep]
    cases hif : s.inFlight with
    | none => exact ⟨h, rfl⟩
    | some b => simp [h]
  | cancelInvoke => exact ⟨rfl, rfl⟩
  | tick =>
    simp only [importStep]
    split
    · split
      · simp [importFinalize, h]
      · simp [tryDispatch, h]
    · exact ⟨h, rfl⟩

theorem foldl_cancelled_calls (t : List ImportEvent) :
    ∀ s : ImportOrch, s.cancelled = true →
      (t.foldl importStep s).callsIssued = s.callsIssued ∧
        (t.foldl importStep s).cancelled = true := by
  induction t with
  | nil => exact fun s h => ⟨rfl, h⟩
  | cons e rest ih =>
    intro s h
    obtain ⟨h1, h2⟩ := importStep_cancelled s e h
    obtain ⟨h3, h4⟩ := ih (importStep s e) h1
    exact ⟨by rw [List.foldl_cons, h3, h2], by rw [List.foldl_cons]; exact h4⟩

theorem exportFetchLoopAux_groups_bound (conc : Nat) (obs : Nat → Bool)
    (hmono : ∀ i j, i ≤ j → obs i = true → obs j = true) (i : Nat) (hi : obs i = true) :
    ∀ (fuel : Nat) (pages : List Nat) (g : Nat),
      (exportFetchLoopAux conc obs fuel pages g).1.length ≤ i - g := by
  intro fuel
  induction fuel with
  | zero => intro pages g; simp [exportFetchLoopAux]
  | succ n ih =>
    intro pages g
    cases pages with
    | nil => simp [exportFetchLoopAux]
    | cons p rest =>
      simp only [exportFetchLoopAux]
      by_cases hg : obs g = true
      · rw [if_pos hg]; simp
      · rw [if_neg hg]
        have hgi : g < i := by
          by_contra hgi
          push_neg at hgi
          exact hg (hmono i g hgi hi)
        have hr := ih (rest.drop (conc - 1)) (g + 1)
        simp only [List.length_cons]
        omega

/-- **C3 counterexample.** The claim says that once cancel is invoked the
operation's final phase is `cancelled`.  Run the import orchestrator on
the schedule: two batches arrive (the first is dispatched), cancel is
invoked, the in-flight call completes, the worker's `complete` message
arrives, and the `waitForInserts` poll fires.  The machine is now stuck:
the queue still holds the second batch, `processBatchQueue` returns
immediately because the flag is set, so the `waitForInserts` loop
(import-service.ts, lines 342-346) never exits — every further event is
a no-op, the promise never resolves, and the phase stays `inserting`,
not `cancelled`. -/
theorem cancellation_final_phase_refuted :
    (importRun [ImportEvent.workerBatch 1, ImportEvent.workerBatch 1,
        ImportEvent.cancelInvoke, ImportEvent.workerComplete, ImportEvent.netDone,
        ImportEvent.tick]).cancelled = true ∧
    (importRun [ImportEvent.workerBatch 1, ImportEvent.workerBatch 1,
        ImportEvent.cancelInvoke, ImportEvent.workerComplete, ImportEvent.netDone,
        ImportEvent.tick]).phase = ImportPhase.inserting ∧
    (importRun [ImportEvent.workerBatch 1, ImportEvent.workerBatch 1,
        ImportEvent.cancelInvoke, ImportEvent.workerComplete, ImportEvent.netDone,
        ImportEvent.tick]).resolved = false ∧
    importStep (importRun [ImportEvent.workerBatch 1, ImportEvent.workerBatch 1,
        ImportEvent.cancelInvoke, ImportEvent.workerComplete, ImportEvent.netDone,
        ImportEvent.tick]) ImportEvent.tick =
      importRun [ImportEvent.workerBatch 1, ImportEvent.workerBatch 1,
        ImportEvent.cancelInvoke, ImportEvent.workerComplete, ImportEvent.netDone,
        ImportEvent.tick] ∧
    importStep (importRun [ImportEvent.workerBatch 1, ImportEvent.workerBatch 1,
        ImportEvent.cancelInvoke, ImportEvent.workerComplete, ImportEvent.netDone,
        ImportEvent.tick]) ImportEvent.netDone =
      importRun [ImportEvent.workerBatch 1, ImportEvent.workerBatch 1,
        ImportEvent.cancelInvoke, ImportEvent.workerComplete, ImportEvent.netDone,
        ImportEvent.tick] ∧
    importStep (importRun [ImportEvent.workerBatch 1, ImportEvent.workerBatch 1,
        ImportEvent.cancelInvoke, ImportEvent.workerComplete, ImportEvent.netDone,
        ImportEvent.tick]) (ImportEvent.workerBatch 7) =
      importRun [ImportEvent.workerBatch 1, ImportEvent.workerBatch 1,
        ImportEvent.cancelInvoke, ImportEvent.workerComplete, ImportEvent.netDone,
        ImportEvent.tick] ∧
    importStep (importRun [ImportEvent.workerBatch 1, ImportEvent.workerBatch 1,
        ImportEvent.cancelInvoke, ImportEvent.workerComplete, ImportEvent.netDone,
        ImportEvent.tick]) ImportEvent.workerComplete =
      importRun [ImportEvent.workerBatch 1, ImportEvent.workerBatch 1,
        ImportEvent.cancelInvoke, ImportEvent.workerComplete, ImportEvent.netDone,
        ImportEvent.tick] ∧
    importStep (importRun [ImportEvent.workerBatch 1, ImportEvent.workerBatch 1,
        ImportEvent.cancelInvoke, ImportEvent.workerComplete, ImportEvent.netDone,
        ImportEvent.tick]) ImportEvent.cancelInvoke =
      importRun [ImportEvent.workerBatch 1, ImportEvent.workerBatch 1,
        ImportEvent.cancelInvoke, ImportEvent.workerComplete, ImportEvent.netDone,
        ImportEvent.tick] := by
  decide

/-- **C3 (amended).** Once cancel is invoked, no further network
write/read call is issued: on every import-orchestrator schedule, the
calls issued after the cancel event are exactly those already issued
when it fired (queued batches are simply dropped), and the export loop
issues no page group at or after the first poll that observes the flag.
The final phase is `cancelled` for an export whose flag is observed by
the post-loop check; an import, however, reaches `cancelled` only in
schedules where the queue drains (see the counterexample). -/
theorem cancellation_stops_network :
    (∀ t1 t2 : List ImportEvent,
      (importRun (t1 ++ ImportEvent.cancelInvoke :: t2)).callsIssued =
        (importRun (t1 ++ [ImportEvent.cancelInvoke])).callsIssued) ∧
    (∀ (conc : Nat) (obs : Nat → Bool),
      (∀ i j, i ≤ j → obs i = true → obs j = true) →
      ∀ i : Nat, obs i = true →
        (∀ (fuel : Nat) (pages : List Nat) (g : Nat),
          (exportFetchLoopAux conc obs fuel pages g).1.length ≤ i - g) ∧
        (∀ totalPages : Nat,
          i ≤ (exportFetchLoop conc obs (List.range' 1 totalPages)).2 + 1 →
          exportFinalPhase conc totalPages obs = ExportPhase.cancelled)) := by
  constructor
  · intro t1 t2
    unfold importRun
    rw [List.foldl_append, List.foldl_append]
    simp only [List.foldl_cons, List.foldl_nil]
    exact (foldl_cancelled_calls t2 _ rfl).1
  · intro conc obs hmono i hi
    refine ⟨exportFetchLoopAux_groups_bound conc obs hmono i hi, ?_⟩
    intro totalPages hle
    unfold exportFinalPhase
    rw [if_pos (hmono i _ hle hi)]

/-- Witness for `cancellation_stops_network`: a concrete import schedule
(batch, cancel, stray events) issues no call after the cancel, and a
concrete export run whose flag is set from the second poll on ends in
phase `cancelled`. -/
theorem cancellation_stops_network_witness :
    (importRun ([ImportEvent.workerBatch 2] ++ ImportEvent.cancelInvoke ::
        [ImportEvent.netDone, ImportEvent.tick])).callsIssued =
      (importRun ([ImportEvent.workerBatch 2] ++ [ImportEvent.cancelInvoke])).callsIssued ∧
    exportFinalPhase 3 4 (fun k => decide (1 ≤ k)) = ExportPhase.cancelled :=
  ⟨cancellation_stops_network.1 [ImportEvent.workerBatch 2]
      [ImportEvent.netDone, ImportEvent.tick],
    (cancellation_stops_network.2 3 (fun k => decide (1 ≤ k))
        (fun i j hij hi => by
          simp only [decide_eq_true_eq] at hi ⊢
          omega)
        1 (by decide)).2 4 (by decide)⟩
